import Mathlib

/-!
Verification of the numeric core of the rasorite plotting tool
(`src/data.rs` and `src/plot.rs`).

Modelling conventions:

* `u64` is `Nat`; arithmetic that can overflow or underflow wraps explicitly
  modulo `2 ^ 64`, matching release-mode Rust semantics.
* `i32` pixel coordinates are `Int`; Rust `i32` division truncates toward
  zero and is modelled by `Int.tdiv`.  (The pixel values appearing in the
  claims stay far away from the `i32` boundaries.)
* IEEE-754 `f64` values and `fixed::I32F32` values are modelled as exact
  rationals: the rounding, quantisation and overflow of those types are not
  modelled.  The places where `f64` arithmetic produces non-finite values
  that the code observes (`is_infinite`, the `NaN`-to-`i32` cast in `map`,
  and the panicking `I32F32::from_num` conversion) are modelled explicitly:
  division by an exactly zero divisor yields the `FloatVal.notFinite`
  marker.
* Panics (`panic!` on mismatched variants, `expect` on empty input,
  `I32F32::from_num` applied to a non-finite value, division by zero) are
  modelled by `Option`, `none` standing for the panic.
* Timestamps (`DateTime<Utc>`) only ever flow through comparisons and
  equality tests in the verified code, so they are modelled as `Nat`.
-/

namespace Rasorite

/-- The `u64` modulus. -/
def u64Mod : Nat := 2 ^ 64

/-- The hybrid value type `DataPoint` of `src/data.rs` (the specification
calls it `DomainValue`): the exact zero `Zero`, a fixed-point `Float`
(`I32F32`, modelled as an exact rational) or an unsigned 64-bit `Integer`. -/
inductive DataPoint where
  | Zero : DataPoint
  | Float : ℚ → DataPoint
  | Integer : Nat → DataPoint
deriving DecidableEq, Repr

namespace DataPoint

/-- The comparison derived by `#[derive(Ord, PartialOrd, Eq, PartialEq)]` in
the source: variants compare by declaration order (`Zero < Float < Integer`)
first, payloads second. -/
def cmp : DataPoint → DataPoint → Ordering
  | .Zero, .Zero => .eq
  | .Zero, _ => .lt
  | _, .Zero => .gt
  | .Float a, .Float b => if a < b then .lt else if b < a then .gt else .eq
  | .Float _, .Integer _ => .lt
  | .Integer _, .Float _ => .gt
  | .Integer a, .Integer b => if a < b then .lt else if b < a then .gt else .eq

/-- Rust `Ord::min` (`self` when the two compare equal). -/
def minD (a b : DataPoint) : DataPoint := if a.cmp b = .gt then b else a

/-- Rust `Ord::max` (`other` when the two compare equal). -/
def maxD (a b : DataPoint) : DataPoint := if a.cmp b = .gt then a else b

/-- Model of `impl From<DataPoint> for f64` in `src/data.rs`. -/
def toF64 : DataPoint → ℚ
  | .Float v => v
  | .Integer n => (n : ℚ)
  | .Zero => 0

/-- Model of `impl From<f64> for DataPoint` in `src/data.rs`: exactly zero collapses
to `Zero`, anything else becomes a fixed-point `Float`. -/
def fromF64 (q : ℚ) : DataPoint := if q = 0 then .Zero else .Float q

/-- Model of `impl Add for DataPoint`: `Zero` short-circuits on either side, matching
variants add their payloads (`u64` addition wraps), mismatched non-zero
variants panic. -/
def add : DataPoint → DataPoint → Option DataPoint
  | .Zero, rhs => some rhs
  | lhs, .Zero => some lhs
  | .Float a, .Float b => some (.Float (a + b))
  | .Integer a, .Integer b => some (.Integer ((a + b) % u64Mod))
  | _, _ => none

/-- Model of `impl Sub for DataPoint`: note that the source returns `rhs` when the
left operand is `Zero` (so `Zero - a = a`), then `self` when the right
operand is `Zero`; matching variants subtract (`u64` subtraction wraps),
mismatched non-zero variants panic. -/
def sub : DataPoint → DataPoint → Option DataPoint
  | .Zero, rhs => some rhs
  | lhs, .Zero => some lhs
  | .Float a, .Float b => some (.Float (a - b))
  | .Integer a, .Integer b => some (.Integer ((a + u64Mod - b) % u64Mod))
  | _, _ => none

/-- Model of `impl Mul for DataPoint`: `Zero` absorbs on either side, matching
variants multiply (`u64` multiplication wraps), mismatched non-zero
variants panic. -/
def mul : DataPoint → DataPoint → Option DataPoint
  | .Zero, _ => some .Zero
  | _, .Zero => some .Zero
  | .Float a, .Float b => some (.Float (a * b))
  | .Integer a, .Integer b => some (.Integer ((a * b) % u64Mod))
  | _, _ => none

/-- Model of `impl Div<u32> for DataPoint`: `Zero` stays `Zero`; `Float` divides as
`f64` and converts back through `From<f64>` (a zero divisor would make that
conversion panic on a non-finite value); `Integer` uses truncating `u64`
division (a zero divisor panics). -/
def divU32 : DataPoint → Nat → Option DataPoint
  | .Zero, _ => some .Zero
  | .Float v, r => if r = 0 then none else some (fromF64 (v / (r : ℚ)))
  | .Integer n, r => if r = 0 then none else some (.Integer (n / r))

end DataPoint

/-- Decimal digit characters (the digits produced by `u64::to_string`). -/
def digitChar : Nat → Char
  | 0 => '0'
  | 1 => '1'
  | 2 => '2'
  | 3 => '3'
  | 4 => '4'
  | 5 => '5'
  | 6 => '6'
  | 7 => '7'
  | 8 => '8'
  | _ => '9'

/-- Little-endian decimal digits of `n`; the fuel (first argument) bounds
the recursion and `64` digits are ample for any `u64`. -/
def natDigitsRev : Nat → Nat → List Nat
  | 0, _ => []
  | f + 1, n => if n = 0 then [] else n % 10 :: natDigitsRev f (n / 10)

/-- Rust `u64::to_string`: the big-endian decimal character rendering. -/
def natToString (n : Nat) : List Char :=
  if n = 0 then ['0'] else ((natDigitsRev 64 n).reverse).map digitChar

/-- The numeric value of an ASCII digit character. -/
def charVal (c : Char) : Nat := c.toNat - 48

/-- Predicate `char::is_numeric` restricted to ASCII decimal digits — the only
numeric characters that decimal renderings (and all claims) involve. -/
def isNumericChar (c : Char) : Bool := '0' ≤ c && c ≤ '9'

/-- The accumulated decimal value of a digit string. -/
def decValue (cs : List Char) : Nat := cs.foldl (fun a c => 10 * a + charVal c) 0

/-- Rust `str::parse::<u64>` on an all-digit string: the accumulated
decimal value, failing on the empty string and on `u64` overflow. -/
def parseU64 (cs : List Char) : Option Nat :=
  if cs = [] then none
  else if decValue cs < u64Mod then some (decValue cs)
  else none

/-- Sign handling of the fixed-point decimal parser: strips a leading `-`
or `+` and remembers whether the value is negated. -/
def fixedSign : List Char → Bool × List Char
  | '-' :: r => (true, r)
  | '+' :: r => (false, r)
  | r => (false, r)

/-- The integer-part digits of a fixed-point decimal literal. -/
def fixedInt (cs : List Char) : List Char := (fixedSign cs).2.takeWhile isNumericChar

/-- Whatever follows the integer-part digits. -/
def fixedRest (cs : List Char) : List Char := (fixedSign cs).2.dropWhile isNumericChar

/-- The fraction digits (after the decimal point). -/
def fixedFrac (cs : List Char) : List Char := (fixedRest cs).drop 1

/-- The unsigned rational value of a fixed-point decimal literal. -/
def fixedVal (cs : List Char) : ℚ :=
  (decValue (fixedInt cs) : ℚ) + (decValue (fixedFrac cs) : ℚ) / (10 : ℚ) ^ (fixedFrac cs).length

/-- The fixed-point fallback branch of `FromStr for DataPoint`
(`I32F32::from_str` of the external `fixed` crate): optional sign, integer
digits, optional `.` and fraction digits, with an `I32F32` range check.
The crate's rounding of the fraction to 32 binary digits is not modelled
(the value is kept exact); no claim exercises this branch. -/
def parseFixed (cs : List Char) : Option ℚ :=
  if fixedRest cs ≠ [] ∧ (fixedRest cs).head? ≠ some '.' then none
  else if (fixedFrac cs).any (fun c => !(isNumericChar c)) then none
  else if fixedInt cs = [] ∧ fixedFrac cs = [] then none
  else if |fixedVal cs| < 2 ^ 31 then
    some (if (fixedSign cs).1 then -fixedVal cs else fixedVal cs)
  else none

/-- Model of `FromStr for DataPoint` (`src/data.rs`): the literal string `"0"` is
`Zero`; an all-numeric string parses as a `u64` `Integer`; anything else
falls back to fixed-point parsing.  `none` models the `CannotParse`
error. -/
def DataPoint.fromStr (cs : List Char) : Option DataPoint :=
  if cs = ['0'] then some .Zero
  else if cs.all isNumericChar then (parseU64 cs).map .Integer
  else (parseFixed cs).map .Float

/-- Model of `ValueFormatter::format` (`src/data.rs`): `Integer` and `Zero` render
as plain decimal integers.  The `Float` branch delegates to plotters'
`FloatPrettyPrinter`, an external library routine that no claim exercises;
it is left unmodelled here. -/
def DataPoint.format : DataPoint → List Char
  | .Integer n => natToString n
  | .Float _ => []
  | .Zero => ['0']

/-- The tuple struct `RangedDataPoint(DataPoint, DataPoint)` of
`src/data.rs`; `f0` and `f1` are its two positional fields. -/
structure RangedDataPoint where
  f0 : DataPoint
  f1 : DataPoint
deriving DecidableEq, Repr

/-- Model of `Ranged::map` for `RangedDataPoint` (`src/data.rs`).  The pixel interval
is `(p0, p1)` (the source's `limit.0`, `limit.1`).  The `f64` interpolation
is modelled over exact rationals; the non-finite branches of the source are
reproduced explicitly: a zero-length span with a nonzero numerator makes the
fraction infinite (`is_infinite` branch), and a `0/0` fraction is `NaN`,
which falls through to the final expression where the `NaN`-to-`i32` cast
yields `0`, so the result is `p0`. -/
def RangedDataPoint.map (r : RangedDataPoint) (value : DataPoint) (p0 p1 : Int) : Int :=
  if r.f1 = r.f0 then (p1 - p0).tdiv 2
  else if p1 - p0 = 0 then p1
  else if r.f1.toF64 - r.f0.toF64 = 0 then
    (if 0 < value.toF64 - r.f0.toF64 then p1 else p0)
  else if 0 < p1 - p0 then
    p0 + ⌊((p1 - p0 : Int) : ℚ) * ((value.toF64 - r.f0.toF64) / (r.f1.toF64 - r.f0.toF64)) + 1 / 1000⌋
  else
    p0 + ⌈((p1 - p0 : Int) : ℚ) * ((value.toF64 - r.f0.toF64) / (r.f1.toF64 - r.f0.toF64)) - 1 / 1000⌉

/-- An `f64` intermediate value: either a finite value (modelled exactly as
a rational) or the non-finite marker covering `inf`, `-inf` and `NaN`.  In
the verified code non-finite values arise only from division by an exactly
zero divisor, and are only ever observed by the panicking
`I32F32::from_num` conversion, so the three non-finite values need not be
distinguished. -/
inductive FloatVal where
  | num : ℚ → FloatVal
  | notFinite : FloatVal
deriving DecidableEq, Repr

/-- Model of `f64` division: a zero divisor produces a non-finite value (`±inf`, or
`NaN` for `0.0 / 0.0`). -/
def divF64 (a b : ℚ) : FloatVal := if b = 0 then .notFinite else .num (a / b)

/-- Model of `impl Mul<f64> for &DataPoint` (`src/plot.rs`): a `Zero` data point
returns `0.0` without touching the scalar; the other variants multiply
their numeric value with the scalar.  A non-finite scalar propagates: for a
nonzero value the product is `±inf`, for a numerically zero `Float` or
`Integer` value it is `NaN` — non-finite either way. -/
def DataPoint.mulScalar : DataPoint → FloatVal → FloatVal
  | .Zero, _ => .num 0
  | .Float v, .num q => .num (v * q)
  | .Float _, .notFinite => .notFinite
  | .Integer n, .num q => .num ((n : ℚ) * q)
  | .Integer _, .notFinite => .notFinite

/-- Model of `DataPoint::from(f64)` applied to an intermediate that may be
non-finite: the `value == 0.0` test fails on non-finite inputs, and
`I32F32::from_num` then panics on them. -/
def DataPoint.fromF64Checked : FloatVal → Option DataPoint
  | .num q => some (DataPoint.fromF64 q)
  | .notFinite => none

/-- The benchmark mean of `normalize_data` (`src/plot.rs`): the `f64` sum
of the reference values divided by the point count.  (For an empty
reference series Rust computes `0.0 / 0.0 = NaN`; the loop never reads the
mean in that case, and the rational model yields the equally unused `0`.) -/
def benchAvg (bench : List (Nat × DataPoint)) : ℚ :=
  (bench.map (fun p => p.2.toF64)).sum / (bench.length : ℚ)

/-- The loop of `normalize_data` (`src/plot.rs`): for each reference point
in order, compute `scalar = avg / bench_value`, look up the primary point
whose timestamp is exactly equal (skipping the timestamp when there is
none), and append the converted product; a panic anywhere aborts the whole
computation. -/
def normalizeGo (data : List (Nat × DataPoint)) (avg : ℚ) :
    List (Nat × DataPoint) → Option (List (Nat × DataPoint))
  | [] => some []
  | (date, benchPoint) :: rest =>
    match data.find? (fun q => q.1 == date) with
    | none => normalizeGo data avg rest
    | some dp =>
      match DataPoint.fromF64Checked (dp.2.mulScalar (divF64 avg benchPoint.toF64)) with
      | none => none
      | some v => (normalizeGo data avg rest).map (fun l => (date, v) :: l)

/-- Model of `normalize_data` (`src/plot.rs`). -/
def normalize_data (data bench : List (Nat × DataPoint)) : Option (List (Nat × DataPoint)) :=
  normalizeGo data (benchAvg bench) bench

/-- Rust `Iterator::min_by` over the value component (`src/data.rs`,
`get_data_range`): the value of the first element with minimal `DataPoint`
under the derived order; `none` models the `expect` panic on empty input. -/
def minByVal : List (Nat × DataPoint) → Option DataPoint
  | [] => none
  | x :: xs => some ((xs.foldl (fun m y => if y.2.cmp m.2 = .lt then y else m) x).2)

/-- Rust `Iterator::max_by` over the value component: the value of the last
element with maximal `DataPoint` under the derived order. -/
def maxByVal : List (Nat × DataPoint) → Option DataPoint
  | [] => none
  | x :: xs => some ((xs.foldl (fun m y => if y.2.cmp m.2 = .lt then m else y) x).2)

/-- Rust `Iterator::min_by` over the date component. -/
def minByDate : List (Nat × DataPoint) → Option Nat
  | [] => none
  | x :: xs => some ((xs.foldl (fun m y => if y.1 < m.1 then y else m) x).1)

/-- Rust `Iterator::max_by` over the date component. -/
def maxByDate : List (Nat × DataPoint) → Option Nat
  | [] => none
  | x :: xs => some ((xs.foldl (fun m y => if y.1 < m.1 then m else y) x).1)

/-- Model of `get_data_range` (`src/data.rs`): the date span together with the
10%-padded value span `low - min(pad, low) .. high + pad` where
`pad = (high - low) / 10`.  `none` models the panics (`expect` on an empty
input, or mismatched-variant arithmetic in the padding computation). -/
def get_data_range (data : List (Nat × DataPoint)) :
    Option ((Nat × Nat) × RangedDataPoint) :=
  (minByVal data).bind (fun low =>
  (maxByVal data).bind (fun high =>
  (high.sub low).bind (fun len =>
  (len.divU32 10).bind (fun pad =>
  (low.sub (pad.minD low)).bind (fun lo2 =>
  (high.add pad).bind (fun hi2 =>
  (minByDate data).bind (fun d0 =>
  (maxByDate data).map (fun d1 => ((d0, d1), ⟨lo2, hi2⟩)))))))))

/-- The constant `f64::EPSILON` (`2⁻⁵²`) as an exact rational. -/
def f64Eps : ℚ := 1 / 2 ^ 52

/-- The raw sign-aware remainder of the local `rem_euclid` helper of
`key_points` (`src/data.rs`). -/
def remEuclidRaw (a b : ℚ) : ℚ :=
  if 0 < b then a - ⌊a / b⌋ * b else a - ⌈a / b⌉ * b

/-- The local `rem_euclid` helper of `key_points`: the raw remainder, with
results within `f64::EPSILON` of the modulus snapped to zero. -/
def remEuclid (a b : ℚ) : ℚ :=
  if |remEuclidRaw a b - b| < f64Eps then 0 else remEuclidRaw a b

/-- Model of `f64::round`: round half away from zero. -/
def f64round (q : ℚ) : Int := if q < 0 then -⌊-q + 1 / 2⌋ else ⌊q + 1 / 2⌋

/-- Floor of the base-10 logarithm (fuel-bounded; `64` decimal digits cover
every value the claims evaluate). -/
def natLog10 (fuel n : Nat) : Nat :=
  if h : fuel = 0 then 0
  else if n < 10 then 0
  else natLog10 (fuel - 1) (n / 10) + 1
termination_by fuel
decreasing_by omega

/-- The `f64` computation `x.log(10.0).floor()` of `key_points`, idealised
to the exact floor of the base-10 logarithm of a positive rational. -/
def log10floor (q : ℚ) : Int :=
  if 1 ≤ q then (natLog10 64 ⌊q⌋.toNat : Int)
  else if (1 : ℚ) / 10 ^ natLog10 64 ⌈q⁻¹⌉.toNat ≤ q then -(natLog10 64 ⌈q⁻¹⌉.toNat : Int)
  else -(natLog10 64 ⌈q⁻¹⌉.toNat : Int) - 1

/-- The value `new_left` of the refinement loop (also the `left` of the emission
phase): the smallest multiple of `s` that is `≥ r0`, up to the epsilon
snapping inside `rem_euclid`. -/
def alignLeft (r0 s : ℚ) : ℚ :=
  if r0 - remEuclid r0 s < r0 then r0 - remEuclid r0 s + s else r0 - remEuclid r0 s

/-- The value `new_right` of the refinement loop (also the `right` of the emission
phase). -/
def alignRight (r1 s : ℚ) : ℚ := r1 - remEuclid r1 s

/-- The value `npoints` of the refinement loop: the tick count candidate `old/nxt`
would generate. -/
def candCount (r0 r1 old nxt : ℚ) : ℚ :=
  1 + (alignRight r1 (old / nxt) - alignLeft r0 (old / nxt)) / old * nxt

/-- One pass of the `'outer` refinement loop over the candidate divisors
`2`, `5`, `10`: `Sum.inl` is a `break 'outer` with the final scale and
granularity, `Sum.inr` carries the state for the next pass (scale and
granularity both shrunk tenfold). -/
def tickPass (r0 r1 : ℚ) (maxPoints : Nat) (scale gran : ℚ) : (ℚ × ℚ) ⊕ (ℚ × ℚ) :=
  if (f64round (candCount r0 r1 scale 2)).toNat > maxPoints then .inl (scale, gran)
  else if (f64round (candCount r0 r1 scale 5)).toNat > maxPoints then .inl (scale / 2, gran)
  else if (f64round (candCount r0 r1 scale 10)).toNat > maxPoints then .inl (scale / 5, gran)
  else .inr (scale / 10, gran / 10)

/-- The `'outer` refinement loop, bounded by fuel — the defensive cap on
refinement passes that the specification itself prescribes (§7).  Each full
pass divides the scale by ten, so `40` passes are ample for every span the
claims evaluate. -/
def tickLoop (r0 r1 : ℚ) (maxPoints : Nat) : Nat → ℚ → ℚ → ℚ × ℚ
  | 0, scale, gran => (scale, gran)
  | fuel + 1, scale, gran =>
    match tickPass r0 r1 maxPoints scale gran with
    | .inl fin => fin
    | .inr sg => tickLoop r0 r1 maxPoints fuel sg.1 sg.2

/-- The emission loop of `key_points`: while
`right - left_relative - left_base ≥ -EPSILON`, push
`left_relative + left_base` (after the negative-granularity-rounding
correction) and advance by `scale`.  Fuel-bounded like the refinement
loop. -/
def tickEmit (right base gran scale : ℚ) : Nat → ℚ → List ℚ
  | 0, _ => []
  | fuel + 1, leftRel =>
    if right - leftRel - base ≥ -f64Eps then
      if ((f64round (leftRel / gran) : ℚ) * gran) < 0 then
        (leftRel + gran + base) :: tickEmit right base gran scale fuel (leftRel + gran + scale)
      else
        (leftRel + base) :: tickEmit right base gran scale fuel (leftRel + scale)
    else []

/-- Model of `Ranged::key_points` for `RangedDataPoint` (`src/data.rs`), over the
exact-rational model of `f64`: empty on a zero budget, a single tick on a
span narrower than `f64::EPSILON`, otherwise the nice-scale refinement
followed by granularity-snapped emission, each value converted through
`DataPoint::from(f64)` (so `0.0` collapses to `Zero`). -/
def RangedDataPoint.keyPoints (r : RangedDataPoint) (maxPoints : Nat) : List DataPoint :=
  if maxPoints = 0 then []
  else
    let r0 := (r.f0.minD r.f1).toF64
    let r1 := (r.f1.maxD r.f0).toF64
    if |r0 - r1| < f64Eps then [DataPoint.fromF64 r0]
    else
      let scale0 : ℚ := 10 ^ log10floor (r1 - r0)
      let gran0 := scale0 / 10
      let scale1 := if 1 + (⌊(r1 - r0) / scale0⌋).toNat > maxPoints then scale0 * 10 else scale0
      let gran1 := if 1 + (⌊(r1 - r0) / scale0⌋).toNat > maxPoints then gran0 * 10 else gran0
      let sg := tickLoop r0 r1 maxPoints 40 scale1 gran1
      let left := alignLeft r0 sg.1
      let base := ⌊left / sg.2⌋ * sg.2
      let right := alignRight r1 sg.1
      (tickEmit right base sg.2 sg.1 64 (left - base)).map DataPoint.fromF64

/-- The variant index of the derived order (verification helper). -/
def DataPoint.keyIdx : DataPoint → Nat
  | .Zero => 0
  | .Float _ => 1
  | .Integer _ => 2

/-- The payload of a value as a rational (verification helper; on each
variant this embeds the payload order-faithfully). -/
def DataPoint.keyVal : DataPoint → ℚ
  | .Zero => 0
  | .Float v => v
  | .Integer n => (n : ℚ)

/-- The lexicographic key realising the derived order (verification
helper). -/
def DataPoint.key (a : DataPoint) : Nat ×ₗ ℚ := toLex (a.keyIdx, a.keyVal)

/-! ### C1: the degenerate branch of `map` -/

/-- C1 (counterexample).  For the degenerate span `[5, 5]` over the pixel
interval `(100, 200)`, `map` returns `(200 - 100) / 2 = 50`, not the
midpoint `(100 + 200) / 2 = 150` claimed by the specification. -/
theorem C1_counterexample :
    RangedDataPoint.map ⟨.Integer 5, .Integer 5⟩ (.Integer 7) 100 200 ≠ (100 + 200) / 2 := by
  decide

/-- C1 (amended).  When the span is degenerate (`hi == lo` under the derived
equality), `map` returns `(p1 - p0) / 2` — half the length of the pixel
interval, measured from `0` — regardless of the value argument.  This
coincides with the midpoint of `[p0, p1]` only when `p0 = 0`. -/
theorem C1_degenerate_map (r : RangedDataPoint) (v : DataPoint) (p0 p1 : Int)
    (h : r.f1 = r.f0) : r.map v p0 p1 = (p1 - p0).tdiv 2 := by
  unfold RangedDataPoint.map
  rw [if_pos h]

/-- C1 (witness): the amended statement evaluated on the degenerate span
`[5, 5]` with pixel interval `(100, 200)`. -/
theorem C1_witness :
    RangedDataPoint.map ⟨.Integer 5, .Integer 5⟩ (.Integer 7) 100 200 =
      ((200 : Int) - 100).tdiv 2 :=
  C1_degenerate_map ⟨.Integer 5, .Integer 5⟩ (.Integer 7) 100 200 rfl

/-! ### C2: `Zero` against numeric zero under the derived comparison -/

/-- C2 (counterexample).  Under the derived comparison, `Zero` is *not*
equal to `Integer 0` nor to `Float 0`: the derived `Ord`/`PartialEq`
distinguish variants before payloads. -/
theorem C2_counterexample :
    DataPoint.cmp .Zero (.Integer 0) ≠ .eq ∧ DataPoint.cmp .Zero (.Float 0) ≠ .eq := by
  constructor <;> decide

/-- The payload comparison pattern used by the derived `Ord` model: it
returns `Ordering.eq` exactly on equal payloads. -/
lemma ite_cmp_eq_iff {α : Type*} [LinearOrder α] (a b : α) :
    (if a < b then Ordering.lt else if b < a then Ordering.gt else Ordering.eq) =
      Ordering.eq ↔ a = b := by
  split_ifs with h1 h2
  · exact iff_of_false (by simp) (fun h => absurd (h ▸ h1) (lt_irrefl b))
  · exact iff_of_false (by simp) (fun h => absurd (h ▸ h2) (lt_irrefl b))
  · exact iff_of_true rfl (le_antisymm (not_lt.mp h2) (not_lt.mp h1))

/-- C2 (amended).  Under the derived total order, `Zero` compares strictly
*below* the numeric zero of either other variant (`Zero < Integer 0` and
`Zero < Float 0`), and the derived equality coincides with structural
equality, so distinct variants are never equal. -/
theorem C2_zero_vs_numeric_zero (a b : DataPoint) :
    DataPoint.cmp .Zero (.Integer 0) = .lt ∧ DataPoint.cmp .Zero (.Float 0) = .lt ∧
    (a.cmp b = .eq ↔ a = b) := by
  refine ⟨rfl, rfl, ?_⟩
  cases a <;> cases b <;> simp only [DataPoint.cmp, ite_cmp_eq_iff] <;> simp

/-! ### C8: `Zero` as identity for add/sub and absorbing for mul -/

/-- C8.  For every `DataPoint` value `a`, `Zero` is a two-sided identity of
the source's `Add` and `Sub` implementations (`a + Zero = a`, `Zero + a = a`,
`a - Zero = a`, `Zero - a = a`; the last one holds because `Sub` returns its
right operand when the left one is `Zero`), and `Zero` absorbs on either
side of `Mul` (`a * Zero = Zero`, `Zero * a = Zero`).  All six operations
short-circuit before the mismatched-variant panic can trigger, so they
always succeed. -/
theorem C8_zero_identity_absorbing (a : DataPoint) :
    a.add .Zero = some a ∧ DataPoint.add .Zero a = some a ∧
    a.sub .Zero = some a ∧ DataPoint.sub .Zero a = some a ∧
    a.mul .Zero = some .Zero ∧ DataPoint.mul .Zero a = some .Zero := by
  cases a <;> simp [DataPoint.add, DataPoint.sub, DataPoint.mul]

/-! ### C9: `map` sends span endpoints to pixel endpoints and is monotone -/

/-- Helper: evaluation of `map` in the regular branch (non-degenerate span,
nonzero numeric span, nonzero pixel length). -/
lemma map_regular (r : RangedDataPoint) (v : DataPoint) (p0 p1 : Int)
    (hne : ¬ r.f1 = r.f0) (hlen : ¬ p1 - p0 = 0) (hden : ¬ r.f1.toF64 - r.f0.toF64 = 0) :
    r.map v p0 p1 =
      if 0 < p1 - p0 then
        p0 + ⌊((p1 - p0 : Int) : ℚ) * ((v.toF64 - r.f0.toF64) / (r.f1.toF64 - r.f0.toF64)) + 1 / 1000⌋
      else
        p0 + ⌈((p1 - p0 : Int) : ℚ) * ((v.toF64 - r.f0.toF64) / (r.f1.toF64 - r.f0.toF64)) - 1 / 1000⌉ := by
  unfold RangedDataPoint.map
  rw [if_neg hne, if_neg hlen, if_neg hden]

/-- C9.  For every span whose endpoints are numerically increasing
(`lo < hi` as `f64`), `map` sends `lo` to `p0` and `hi` to `p1`, is
monotonically non-decreasing in the value argument whenever `p0 < p1`, and
the concrete scenario over `lo = 0`, `hi = 100`, pixels `(0, 200)` maps
`50 ↦ 100`, `0 ↦ 0`, `100 ↦ 200`. -/
theorem C9_map_endpoints_monotone :
    (∀ (r : RangedDataPoint) (p0 p1 : Int), r.f0.toF64 < r.f1.toF64 →
      r.map r.f0 p0 p1 = p0 ∧ r.map r.f1 p0 p1 = p1 ∧
      (∀ v w : DataPoint, p0 < p1 → v.toF64 ≤ w.toF64 → r.map v p0 p1 ≤ r.map w p0 p1)) ∧
    RangedDataPoint.map ⟨.Integer 0, .Integer 100⟩ (.Integer 50) 0 200 = 100 ∧
    RangedDataPoint.map ⟨.Integer 0, .Integer 100⟩ (.Integer 0) 0 200 = 0 ∧
    RangedDataPoint.map ⟨.Integer 0, .Integer 100⟩ (.Integer 100) 0 200 = 200 := by
  constructor
  · intro r p0 p1 h
    have hne : ¬ r.f1 = r.f0 := by
      intro he
      rw [he] at h
      exact lt_irrefl _ h
    have hdpos : 0 < r.f1.toF64 - r.f0.toF64 := sub_pos.mpr h
    have hden : ¬ r.f1.toF64 - r.f0.toF64 = 0 := ne_of_gt hdpos
    refine ⟨?_, ?_, ?_⟩
    · by_cases hlen : p1 - p0 = 0
      · unfold RangedDataPoint.map
        rw [if_neg hne, if_pos hlen]
        omega
      · rw [map_regular r r.f0 p0 p1 hne hlen hden]
        rw [sub_self, zero_div, mul_zero, zero_add]
        split_ifs
        · norm_num
        · norm_num
    · by_cases hlen : p1 - p0 = 0
      · unfold RangedDataPoint.map
        rw [if_neg hne, if_pos hlen]
      · rw [map_regular r r.f1 p0 p1 hne hlen hden]
        rw [div_self hden, mul_one]
        split_ifs
        · rw [add_comm ((p1 - p0 : Int) : ℚ) (1 / 1000), Int.floor_add_int]
          norm_num
        · rw [sub_eq_add_neg, add_comm ((p1 - p0 : Int) : ℚ) (-(1 / 1000)), Int.ceil_add_int,
            show ⌈-(1 / 1000 : ℚ)⌉ = 0 from by norm_num [Int.ceil_eq_iff]]
          omega
    · intro v w hp hvw
      have hlen : ¬ p1 - p0 = 0 := by omega
      have hlpos : 0 < p1 - p0 := by omega
      rw [map_regular r v p0 p1 hne hlen hden, map_regular r w p0 p1 hne hlen hden,
        if_pos hlpos, if_pos hlpos]
      have hnum : v.toF64 - r.f0.toF64 ≤ w.toF64 - r.f0.toF64 := sub_le_sub_right hvw _
      have hdiv : (v.toF64 - r.f0.toF64) / (r.f1.toF64 - r.f0.toF64) ≤
          (w.toF64 - r.f0.toF64) / (r.f1.toF64 - r.f0.toF64) :=
        (div_le_div_iff_of_pos_right hdpos).mpr hnum
      have hcast : (0 : ℚ) ≤ ((p1 - p0 : Int) : ℚ) := by
        exact_mod_cast hlpos.le
      have hmul := mul_le_mul_of_nonneg_left hdiv hcast
      exact add_le_add_left (Int.floor_le_floor (add_le_add_right hmul _)) p0
  · refine ⟨?_, ?_, ?_⟩ <;> norm_num [RangedDataPoint.map, DataPoint.toF64]

/-- C9 (witness): the endpoint and monotonicity statement instantiated on
the span `[0, 100]` with pixel interval `(0, 200)`. -/
theorem C9_witness :
    RangedDataPoint.map ⟨.Integer 0, .Integer 100⟩ (RangedDataPoint.mk (.Integer 0) (.Integer 100)).f0 0 200 = 0 ∧
    RangedDataPoint.map ⟨.Integer 0, .Integer 100⟩ (RangedDataPoint.mk (.Integer 0) (.Integer 100)).f1 0 200 = 200 ∧
    (∀ v w : DataPoint, (0 : Int) < 200 → v.toF64 ≤ w.toF64 →
      RangedDataPoint.map ⟨.Integer 0, .Integer 100⟩ v 0 200 ≤
        RangedDataPoint.map ⟨.Integer 0, .Integer 100⟩ w 0 200) :=
  C9_map_endpoints_monotone.1 ⟨.Integer 0, .Integer 100⟩ 0 200 (by norm_num [DataPoint.toF64])

/-! ### C3: parse/format round trip -/

/-- Every digit produced by `natDigitsRev` is below `10`. -/
lemma natDigitsRev_lt (f : Nat) : ∀ n, ∀ d ∈ natDigitsRev f n, d < 10 := by
  induction f with
  | zero => intro n d hd; simp [natDigitsRev] at hd
  | succ f ih =>
    intro n d hd
    rw [natDigitsRev] at hd
    split at hd
    · simp at hd
    · rcases List.mem_cons.mp hd with h | h
      · omega
      · exact ih _ d h

/-- The little-endian digits of `n` evaluate back to `n` when the fuel
covers `n`. -/
lemma natDigitsRev_val (f : Nat) : ∀ n, n < 10 ^ f →
    (natDigitsRev f n).foldr (fun d r => d + 10 * r) 0 = n := by
  induction f with
  | zero =>
    intro n hn
    simp only [pow_zero, Nat.lt_one_iff] at hn
    simp [natDigitsRev, hn]
  | succ f ih =>
    intro n hn
    rw [natDigitsRev]
    split
    · simp only [List.foldr_nil]
      omega
    · simp only [List.foldr_cons]
      have hdiv : n / 10 < 10 ^ f := by
        rw [pow_succ] at hn
        omega
      rw [ih (n / 10) hdiv]
      omega

/-- The function `charVal` undoes `digitChar` on digits. -/
lemma charVal_digitChar (d : Nat) (h : d < 10) : charVal (digitChar d) = d := by
  interval_cases d <;> rfl

/-- Digit characters are numeric. -/
lemma isNumericChar_digitChar (d : Nat) (h : d < 10) : isNumericChar (digitChar d) = true := by
  interval_cases d <;> rfl

/-- Folding the parser's accumulator over rendered digits recovers the
little-endian evaluation. -/
lemma foldr_charVal (ds : List Nat) (h : ∀ d ∈ ds, d < 10) :
    ds.foldr (fun x y => 10 * y + charVal (digitChar x)) 0 =
      ds.foldr (fun d r => d + 10 * r) 0 := by
  induction ds with
  | nil => rfl
  | cons d ds ih =>
    simp only [List.foldr_cons]
    rw [ih (fun x hx => h x (List.mem_cons_of_mem _ hx)),
      charVal_digitChar d (h d (List.mem_cons_self _ _))]
    omega

/-- Parsing the decimal rendering of `n` recovers `n`. -/
lemma decValue_natToString (n : Nat) (h : n < 10 ^ 64) : decValue (natToString n) = n := by
  by_cases h0 : n = 0
  · subst h0; rfl
  · unfold natToString decValue
    rw [if_neg h0, List.foldl_map, List.foldl_reverse]
    have := foldr_charVal (natDigitsRev 64 n) (natDigitsRev_lt 64 n)
    simpa [this] using natDigitsRev_val 64 n h

/-- Every character of a decimal rendering is numeric. -/
lemma natToString_all_numeric (n : Nat) : (natToString n).all isNumericChar = true := by
  unfold natToString
  split
  · rfl
  · rw [List.all_eq_true]
    intro c hc
    rcases List.mem_map.mp hc with ⟨d, hd, hcd⟩
    rw [← hcd]
    exact isNumericChar_digitChar d (natDigitsRev_lt 64 n d (List.mem_reverse.mp hd))

/-- C3 (counterexample).  `format (Integer 0)` is the string `"0"`, which
parses back to the `Zero` variant, not to `Integer 0`; so the round trip
fails at `n = 0`. -/
theorem C3_counterexample :
    DataPoint.fromStr (DataPoint.format (.Integer 0)) ≠ some (.Integer 0) := by
  decide

/-- C3 (amended).  `parse("0")` is `Zero`, and the round trip
`parse(format(Integer n)) = Integer n` holds for every *positive* 64-bit
`n`; for `n = 0` the rendered string `"0"` hits the dedicated `Zero` case
of the parser and comes back as `Zero` instead. -/
theorem C3_parse_format_roundtrip :
    DataPoint.fromStr ['0'] = some .Zero ∧
    ∀ n : Nat, 1 ≤ n → n < 2 ^ 64 →
      DataPoint.fromStr (DataPoint.format (.Integer n)) = some (.Integer n) := by
  constructor
  · rfl
  · intro n h1 h2
    have h64 : n < 10 ^ 64 := lt_trans h2 (by norm_num)
    have hval := decValue_natToString n h64
    have hne : natToString n ≠ ['0'] := by
      intro he
      rw [he] at hval
      simp [decValue, charVal] at hval
      omega
    have hnil : natToString n ≠ [] := by
      intro he
      rw [he] at hval
      simp [decValue] at hval
      omega
    show DataPoint.fromStr (natToString n) = some (.Integer n)
    unfold DataPoint.fromStr
    rw [if_neg hne, if_pos (natToString_all_numeric n)]
    unfold parseU64
    rw [if_neg hnil, hval, if_pos (by unfold u64Mod; omega)]
    rfl

/-- C3 (witness): the round trip evaluated at `n = 12`. -/
theorem C3_witness :
    DataPoint.fromStr (DataPoint.format (.Integer 12)) = some (.Integer 12) :=
  C3_parse_format_roundtrip.2 12 (by norm_num) (by norm_num)

/-! ### C6 and C10: normalization -/

/-- Characterisation of the normalization loop: on success, the output is
the `filterMap` of the reference series through timestamp lookup and
converted product. -/
lemma normalizeGo_eq (data : List (Nat × DataPoint)) (avg : ℚ) :
    ∀ l out, normalizeGo data avg l = some out →
      out = l.filterMap (fun p =>
        (data.find? (fun q => q.1 == p.1)).bind (fun dp =>
          (DataPoint.fromF64Checked (dp.2.mulScalar (divF64 avg p.2.toF64))).map
            (fun v => (p.1, v)))) := by
  intro l
  induction l with
  | nil =>
    intro out h
    simp only [normalizeGo] at h
    injection h with h
    simp [← h]
  | cons p rest ih =>
    intro out h
    obtain ⟨pd, pv⟩ := p
    rw [normalizeGo] at h
    cases hfind : data.find? (fun q => q.1 == pd) with
    | none =>
      simp only [hfind] at h
      simp [List.filterMap_cons, hfind, ih out h]
    | some dp =>
      simp only [hfind] at h
      cases hconv : DataPoint.fromF64Checked (dp.2.mulScalar (divF64 avg pv.toF64)) with
      | none =>
        simp only [hconv] at h
        exact absurd h (by simp)
      | some v =>
        simp only [hconv] at h
        rcases Option.map_eq_some'.mp h with ⟨restOut, hrest, hcons⟩
        rw [ih restOut hrest] at hcons
        simp [List.filterMap_cons, hfind, hconv, ← hcons]

/-- C6 (counterexample).  A primary point whose value is the `Zero` variant
makes the emitted product `0.0`, and `DataPoint::from(0.0)` yields the
`Zero` variant — not the `Fixed` (`Float`) variant claimed for every
emitted point.  Here the reference point `(0, Integer 1)` has the matching
primary point `(0, Zero)` and the emitted output value is `Zero`. -/
theorem C6_counterexample :
    normalize_data [(0, DataPoint.Zero)] [(0, DataPoint.Integer 1)] =
      some [(0, DataPoint.Zero)] := by
  simp [normalize_data, normalizeGo, benchAvg, DataPoint.toF64, divF64,
    DataPoint.mulScalar, DataPoint.fromF64Checked, DataPoint.fromF64, List.find?]

/-- C6 (amended).  Normalization iterates the reference series in its
original order; for each reference point `(t, r)` it emits
`(t, from_f64(primary(t) × (mean / to_double(r))))` exactly when the
primary series contains a point with timestamp exactly equal to `t`, and
drops `t` otherwise — but the emitted value goes through the
`From<f64>` conversion, so it is the `Fixed` variant only when the product
is nonzero, the `Zero` variant when the product is exactly zero, and the
whole normalization panics when the converted product is non-finite.  The
concrete scenario (reference `{(t1,10), (t2,30)}`, primary
`{(t1,5), (t2,5)}`) yields `{(t1, 10.0), (t2, 10/3)}`. -/
theorem C6_normalize_characterization :
    (∀ data bench out, normalize_data data bench = some out →
      out = bench.filterMap (fun p =>
        (data.find? (fun q => q.1 == p.1)).bind (fun dp =>
          (DataPoint.fromF64Checked (dp.2.mulScalar (divF64 (benchAvg bench) p.2.toF64))).map
            (fun v => (p.1, v))))) ∧
    normalize_data [(1, DataPoint.Integer 5), (2, DataPoint.Integer 5)]
        [(1, DataPoint.Integer 10), (2, DataPoint.Integer 30)] =
      some [(1, DataPoint.Float 10), (2, DataPoint.Float (10 / 3))] := by
  constructor
  · intro data bench out h
    exact normalizeGo_eq data (benchAvg bench) bench out h
  · have h1 : benchAvg [(1, DataPoint.Integer 10), (2, DataPoint.Integer 30)] = 20 := by
      simp [benchAvg, DataPoint.toF64]
      norm_num
    simp [normalize_data, normalizeGo, h1, DataPoint.toF64, divF64,
      DataPoint.mulScalar, DataPoint.fromF64Checked, DataPoint.fromF64, List.find?]
    norm_num

/-- C6 (witness): the characterisation applied to the scenario input. -/
theorem C6_witness :
    [(1, DataPoint.Float 10), (2, DataPoint.Float (10 / 3))] =
      List.filterMap (fun p =>
        (List.find? (fun q => q.1 == p.1)
            [(1, DataPoint.Integer 5), (2, DataPoint.Integer 5)]).bind (fun dp =>
          (DataPoint.fromF64Checked (dp.2.mulScalar (divF64
              (benchAvg [(1, DataPoint.Integer 10), (2, DataPoint.Integer 30)])
              p.2.toF64))).map
            (fun v => (p.1, v))))
        [(1, DataPoint.Integer 10), (2, DataPoint.Integer 30)] :=
  C6_normalize_characterization.1
    [(1, DataPoint.Integer 5), (2, DataPoint.Integer 5)]
    [(1, DataPoint.Integer 10), (2, DataPoint.Integer 30)]
    [(1, DataPoint.Float 10), (2, DataPoint.Float (10 / 3))]
    C6_normalize_characterization.2

/-- Helper for C10: inside the loop, a reference point whose value is the
`Zero` variant and whose timestamp has a primary match forces the stated
outcome. -/
lemma normalizeGo_zero_ref (data : List (Nat × DataPoint)) (avg : ℚ) (t : Nat)
    (dp : Nat × DataPoint) (hfind : data.find? (fun q => q.1 == t) = some dp) :
    ∀ l, (t, DataPoint.Zero) ∈ l →
      (dp.2 ≠ .Zero → normalizeGo data avg l = none) ∧
      (dp.2 = .Zero → ∀ out, normalizeGo data avg l = some out →
        (t, DataPoint.Zero) ∈ out) := by
  intro l
  induction l with
  | nil => intro hmem; simp at hmem
  | cons p rest ih =>
    intro hmem
    rcases List.mem_cons.mp hmem with heq | hm
    · constructor
      · intro hdp
        rw [← heq, normalizeGo]
        simp only [hfind, DataPoint.toF64, divF64, if_pos rfl]
        cases hval : dp.2 with
        | Zero => exact absurd hval hdp
        | Float v => simp [DataPoint.mulScalar, DataPoint.fromF64Checked]
        | Integer n => simp [DataPoint.mulScalar, DataPoint.fromF64Checked]
      · intro hdp out hout
        rw [← heq, normalizeGo] at hout
        simp only [hfind, DataPoint.toF64, divF64, if_pos rfl, hdp,
          DataPoint.mulScalar, DataPoint.fromF64Checked, DataPoint.fromF64] at hout
        rcases Option.map_eq_some'.mp hout with ⟨restOut, hrest, hcons⟩
        rw [← hcons]
        exact List.mem_cons_self _ _
    · have ihm := ih hm
      constructor
      · intro hdp
        obtain ⟨pd, pv⟩ := p
        rw [normalizeGo]
        cases hf : data.find? (fun q => q.1 == pd) with
        | none => simpa using ihm.1 hdp
        | some dq =>
          cases hc : DataPoint.fromF64Checked (dq.2.mulScalar (divF64 avg pv.toF64)) with
          | none => simp [hc]
          | some v => simp [hc, ihm.1 hdp]
      · intro hdp out hout
        obtain ⟨pd, pv⟩ := p
        rw [normalizeGo] at hout
        cases hf : data.find? (fun q => q.1 == pd) with
        | none =>
          simp only [hf] at hout
          exact ihm.2 hdp out hout
        | some dq =>
          simp only [hf] at hout
          cases hc : DataPoint.fromF64Checked (dq.2.mulScalar (divF64 avg pv.toF64)) with
          | none =>
            simp only [hc] at hout
            exact absurd hout (by simp)
          | some v =>
            simp only [hc] at hout
            rcases Option.map_eq_some'.mp hout with ⟨restOut, hrest, hcons⟩
            rw [← hcons]
            exact List.mem_cons_of_mem _ (ihm.2 hdp restOut hrest)

/-- C10.  If the reference series contains a point `(t, Zero)` and the
primary lookup at timestamp `t` finds a point, then: when that primary
value is not the `Zero` variant, the scalar `mean / 0.0` is non-finite, its
product with the primary value is non-finite, `I32F32::from_num` panics and
the whole normalization aborts; when the primary value is the `Zero`
variant, the product is the finite `0.0` and the output contains
`(t, Zero)`.  Either way the `Zero`-reference timestamp is never silently
skipped. -/
theorem C10_zero_reference (data bench : List (Nat × DataPoint)) (t : Nat)
    (dp : Nat × DataPoint)
    (hmem : (t, DataPoint.Zero) ∈ bench)
    (hfind : data.find? (fun q => q.1 == t) = some dp) :
    (dp.2 ≠ .Zero → normalize_data data bench = none) ∧
    (dp.2 = .Zero → ∀ out, normalize_data data bench = some out →
      (t, DataPoint.Zero) ∈ out) :=
  normalizeGo_zero_ref data (benchAvg bench) t dp hfind bench hmem

/-- C10 (witness): a `Zero` reference value with a non-`Zero` primary match
makes the whole normalization panic. -/
theorem C10_witness :
    normalize_data [(0, DataPoint.Integer 5)] [(0, DataPoint.Zero)] = none :=
  (C10_zero_reference [(0, DataPoint.Integer 5)] [(0, DataPoint.Zero)] 0
    (0, DataPoint.Integer 5) (by simp) (by rfl)).1 (by simp)

/-! ### C7: the padded value span of `get_data_range` -/

/-- The payload comparison pattern returns `Ordering.lt` exactly on smaller
payloads. -/
lemma ite_cmp_lt_iff {α : Type*} [LinearOrder α] (a b : α) :
    (if a < b then Ordering.lt else if b < a then Ordering.gt else Ordering.eq) =
      Ordering.lt ↔ a < b := by
  split_ifs with h1 h2
  · exact iff_of_true rfl h1
  · exact iff_of_false (by simp) h1
  · exact iff_of_false (by simp) h1

/-- The derived comparison agrees with the lexicographic key. -/
lemma cmp_lt_iff (a b : DataPoint) : a.cmp b = .lt ↔ a.key < b.key := by
  rw [DataPoint.key, DataPoint.key, Prod.Lex.lt_iff]
  cases a <;> cases b <;>
    simp [DataPoint.cmp, DataPoint.keyIdx, DataPoint.keyVal, ite_cmp_lt_iff]

/-- The fold implementing `min_by` returns an element of the list that is
minimal for the key order. -/
lemma foldMin_spec (xs : List (Nat × DataPoint)) : ∀ x : Nat × DataPoint,
    (xs.foldl (fun m y => if y.2.cmp m.2 = .lt then y else m) x) ∈ x :: xs ∧
    ∀ v ∈ x :: xs,
      (xs.foldl (fun m y => if y.2.cmp m.2 = .lt then y else m) x).2.key ≤ v.2.key := by
  induction xs with
  | nil => intro x; simp
  | cons y ys ih =>
    intro x
    rw [List.foldl_cons]
    obtain ⟨hmem, hmin⟩ := ih (if y.2.cmp x.2 = .lt then y else x)
    have hstep : (if y.2.cmp x.2 = .lt then y else x) = y ∨
        (if y.2.cmp x.2 = .lt then y else x) = x := by
      split_ifs <;> simp
    have hxle : (if y.2.cmp x.2 = .lt then y else x).2.key ≤ x.2.key := by
      split_ifs with hc
      · exact le_of_lt ((cmp_lt_iff _ _).mp hc)
      · exact le_refl _
    have hyle : (if y.2.cmp x.2 = .lt then y else x).2.key ≤ y.2.key := by
      split_ifs with hc
      · exact le_refl _
      · exact le_of_not_lt (fun hl => hc ((cmp_lt_iff _ _).mpr hl))
    constructor
    · rcases List.mem_cons.mp hmem with h | h
      · rcases hstep with hs | hs
        · rw [h, hs]; simp
        · rw [h, hs]; simp
      · simp [List.mem_cons]
        right; right
        exact h
    · intro v hv
      have hhead := hmin _ (List.mem_cons_self _ _)
      rcases List.mem_cons.mp hv with h | h
      · rw [h]
        exact le_trans hhead hxle
      · rcases List.mem_cons.mp h with h2 | h2
        · rw [h2]
          exact le_trans hhead hyle
        · exact hmin v (List.mem_cons_of_mem _ h2)

/-- The fold implementing `max_by` returns an element of the list that is
maximal for the key order. -/
lemma foldMax_spec (xs : List (Nat × DataPoint)) : ∀ x : Nat × DataPoint,
    (xs.foldl (fun m y => if y.2.cmp m.2 = .lt then m else y) x) ∈ x :: xs ∧
    ∀ v ∈ x :: xs,
      v.2.key ≤ (xs.foldl (fun m y => if y.2.cmp m.2 = .lt then m else y) x).2.key := by
  induction xs with
  | nil => intro x; simp
  | cons y ys ih =>
    intro x
    rw [List.foldl_cons]
    obtain ⟨hmem, hmax⟩ := ih (if y.2.cmp x.2 = .lt then x else y)
    have hstep : (if y.2.cmp x.2 = .lt then x else y) = y ∨
        (if y.2.cmp x.2 = .lt then x else y) = x := by
      split_ifs <;> simp
    have hxle : x.2.key ≤ (if y.2.cmp x.2 = .lt then x else y).2.key := by
      split_ifs with hc
      · exact le_refl _
      · exact le_of_not_lt (fun hl => hc ((cmp_lt_iff _ _).mpr hl))
    have hyle : y.2.key ≤ (if y.2.cmp x.2 = .lt then x else y).2.key := by
      split_ifs with hc
      · exact le_of_lt ((cmp_lt_iff _ _).mp hc)
      · exact le_refl _
    constructor
    · rcases List.mem_cons.mp hmem with h | h
      · rcases hstep with hs | hs
        · rw [h, hs]; simp
        · rw [h, hs]; simp
      · simp [List.mem_cons]
        right; right
        exact h
    · intro v hv
      have hhead := hmax _ (List.mem_cons_self _ _)
      rcases List.mem_cons.mp hv with h | h
      · rw [h]
        exact le_trans hxle hhead
      · rcases List.mem_cons.mp h with h2 | h2
        · rw [h2]
          exact le_trans hyle hhead
        · exact hmax v (List.mem_cons_of_mem _ h2)

/-- Characterisation of `minByVal`: a member value below which (in the derived
order) no value of the list lies. -/
lemma minByVal_spec (data : List (Nat × DataPoint)) (low : DataPoint)
    (h : minByVal data = some low) :
    low ∈ data.map (fun p => p.2) ∧
    ∀ v ∈ data.map (fun p => p.2), v.cmp low ≠ .lt := by
  cases data with
  | nil => simp [minByVal] at h
  | cons x xs =>
    simp only [minByVal] at h
    injection h with h
    obtain ⟨hmem, hmin⟩ := foldMin_spec xs x
    constructor
    · rw [← h]
      exact List.mem_map_of_mem _ hmem
    · intro v hv hlt
      rcases List.mem_map.mp hv with ⟨p, hp, hpv⟩
      have := hmin p hp
      rw [h, hpv] at this
      exact absurd ((cmp_lt_iff _ _).mp hlt) (not_lt.mpr this)

/-- Characterisation of `maxByVal`: a member value above which (in the derived
order) no value of the list lies. -/
lemma maxByVal_spec (data : List (Nat × DataPoint)) (high : DataPoint)
    (h : maxByVal data = some high) :
    high ∈ data.map (fun p => p.2) ∧
    ∀ v ∈ data.map (fun p => p.2), high.cmp v ≠ .lt := by
  cases data with
  | nil => simp [maxByVal] at h
  | cons x xs =>
    simp only [maxByVal] at h
    injection h with h
    obtain ⟨hmem, hmax⟩ := foldMax_spec xs x
    constructor
    · rw [← h]
      exact List.mem_map_of_mem _ hmem
    · intro v hv hlt
      rcases List.mem_map.mp hv with ⟨p, hp, hpv⟩
      have := hmax p hp
      rw [h, hpv] at this
      exact absurd ((cmp_lt_iff _ _).mp hlt) (not_lt.mpr this)

/-- C7.  Whenever `get_data_range` succeeds, its value span is
`[low - min(pad, low), high + pad]` where `low` and `high` are a minimal
and a maximal value of the input under the derived `DataPoint` order and
`pad = (high - low) / 10`; moreover for `Integer` operands the clamped
subtraction `low - min(pad, low)` is exact (no `u64` underflow), so the
lower bound never goes below zero.  On the value points `{10, 20}` the
padded span is exactly `[9, 21]`. -/
theorem C7_data_range :
    (∀ data dr s e, get_data_range data = some (dr, ⟨s, e⟩) →
      ∃ low high len pad,
        (low ∈ data.map (fun p => p.2) ∧
          ∀ v ∈ data.map (fun p => p.2), v.cmp low ≠ .lt) ∧
        (high ∈ data.map (fun p => p.2) ∧
          ∀ v ∈ data.map (fun p => p.2), high.cmp v ≠ .lt) ∧
        high.sub low = some len ∧ len.divU32 10 = some pad ∧
        low.sub (pad.minD low) = some s ∧ high.add pad = some e) ∧
    (∀ l p : Nat, l < u64Mod →
      DataPoint.sub (.Integer l) ((DataPoint.Integer p).minD (.Integer l)) =
        some (.Integer (l - Nat.min p l))) ∧
    get_data_range [(0, DataPoint.Integer 10), (1, DataPoint.Integer 20)] =
      some ((0, 1), ⟨.Integer 9, .Integer 21⟩) := by
  refine ⟨?_, ?_, ?_⟩
  · intro data dr s e h
    simp only [get_data_range, Option.bind_eq_some, Option.map_eq_some'] at h
    obtain ⟨low, hlow, high, hhigh, len, hlen, pad, hpad, lo2, hlo2, hi2, hhi2,
      d0, hd0, d1, hd1, heq⟩ := h
    have hs : lo2 = s := congrArg (fun z => z.2.f0) heq
    have he : hi2 = e := congrArg (fun z => z.2.f1) heq
    refine ⟨low, high, len, pad, minByVal_spec data low hlow,
      maxByVal_spec data high hhigh, hlen, hpad, ?_, ?_⟩
    · rw [← hs]; exact hlo2
    · rw [← he]; exact hhi2
  · intro l p hl
    have h64 : u64Mod = 18446744073709551616 := by norm_num [u64Mod]
    rw [h64] at hl
    have hmin : (DataPoint.Integer p).minD (.Integer l) = .Integer (Nat.min p l) := by
      rcases Nat.lt_trichotomy p l with h1 | h1 | h1
      · have hc : (DataPoint.Integer p).cmp (.Integer l) = .lt := by
          simp [DataPoint.cmp, h1]
        rw [DataPoint.minD, hc, if_neg (by simp)]
        exact congrArg DataPoint.Integer (Nat.min_eq_left h1.le).symm
      · have hc : (DataPoint.Integer p).cmp (.Integer l) = .eq := by
          simp [DataPoint.cmp, h1]
        rw [DataPoint.minD, hc, if_neg (by simp)]
        exact congrArg DataPoint.Integer (Nat.min_eq_left h1.le).symm
      · have hc : (DataPoint.Integer p).cmp (.Integer l) = .gt := by
          simp [DataPoint.cmp, h1, Nat.lt_asymm h1]
        rw [DataPoint.minD, hc, if_pos rfl]
        exact congrArg DataPoint.Integer (Nat.min_eq_right h1.le).symm
    rw [hmin]
    simp only [DataPoint.sub, h64, Option.some.injEq, DataPoint.Integer.injEq]
    have hm : Nat.min p l ≤ l := Nat.min_le_right p l
    omega
  · decide

/-- C7 (witness): the span characterisation applied to the scenario input
`{(0, 10), (1, 20)}`. -/
theorem C7_witness :
    ∃ low high len pad,
      (low ∈ [(0, DataPoint.Integer 10), (1, DataPoint.Integer 20)].map (fun p => p.2) ∧
        ∀ v ∈ [(0, DataPoint.Integer 10), (1, DataPoint.Integer 20)].map (fun p => p.2),
          v.cmp low ≠ .lt) ∧
      (high ∈ [(0, DataPoint.Integer 10), (1, DataPoint.Integer 20)].map (fun p => p.2) ∧
        ∀ v ∈ [(0, DataPoint.Integer 10), (1, DataPoint.Integer 20)].map (fun p => p.2),
          high.cmp v ≠ .lt) ∧
      high.sub low = some len ∧ len.divU32 10 = some pad ∧
      low.sub (pad.minD low) = some (DataPoint.Integer 9) ∧
      high.add pad = some (DataPoint.Integer 21) :=
  C7_data_range.1 [(0, DataPoint.Integer 10), (1, DataPoint.Integer 20)] (0, 1)
    (.Integer 9) (.Integer 21) C7_data_range.2.2

/-! ### C5: the tick plan of the span `[0, 1]` with budget ten -/

/-- Unfolding lemma for the refinement loop when the first pass breaks
out. -/
lemma tickLoop_break (r0 r1 : ℚ) (mp fuel : Nat) (scale gran : ℚ) (fin : ℚ × ℚ)
    (hp : tickPass r0 r1 mp scale gran = .inl fin) :
    tickLoop r0 r1 mp (fuel + 1) scale gran = fin := by
  rw [tickLoop, hp]

/-- Unfolding lemma for one emission-loop iteration (no negative-rounding
correction). -/
lemma tickEmit_step (right base gran scale : ℚ) (fuel : Nat) (leftRel : ℚ)
    (h1 : right - leftRel - base ≥ -f64Eps)
    (h2 : ¬ ((f64round (leftRel / gran) : ℚ) * gran) < 0) :
    tickEmit right base gran scale (fuel + 1) leftRel =
      (leftRel + base) :: tickEmit right base gran scale fuel (leftRel + scale) := by
  rw [tickEmit, if_pos h1, if_neg h2]

/-- Unfolding lemma for the emission-loop exit. -/
lemma tickEmit_stop (right base gran scale : ℚ) (fuel : Nat) (leftRel : ℚ)
    (h1 : ¬ right - leftRel - base ≥ -f64Eps) :
    tickEmit right base gran scale (fuel + 1) leftRel = [] := by
  rw [tickEmit, if_neg h1]

/-- C5.  On the span `[0, 1]` with a budget of ten ticks, `key_points`
returns exactly the six ticks `0, 0.2, 0.4, 0.6, 0.8, 1.0`: the selected
nice scale is `1/5` with granularity `1/10`, the first emitted value
collapses to the `Zero` variant through `DataPoint::from(0.0)`, and the
remaining five are `Fixed` (`Float`) values. -/
theorem C5_scenario_ticks :
    RangedDataPoint.keyPoints ⟨.Zero, .Integer 1⟩ 10 =
      [DataPoint.Zero, .Float (1 / 5), .Float (2 / 5), .Float (3 / 5),
        .Float (4 / 5), .Float 1] := by
  have em0 : DataPoint.Zero.minD (.Integer 1) = .Zero := by decide
  have em1 : (DataPoint.Integer 1).maxD .Zero = .Integer 1 := by decide
  have et0 : (DataPoint.Zero.minD (.Integer 1)).toF64 = 0 := by
    rw [em0]
    simp [DataPoint.toF64]
  have et1 : ((DataPoint.Integer 1).maxD .Zero).toF64 = 1 := by
    rw [em1]
    norm_num [DataPoint.toF64]
  have enl : natLog10 64 1 = 0 := by
    rw [natLog10, dif_neg (by norm_num), if_pos (by norm_num)]
  have elog : log10floor 1 = 0 := by
    rw [log10floor, if_pos (by norm_num)]
    norm_num [enl]
  have erz2 : remEuclid 0 (1 / 2) = 0 := by
    norm_num [remEuclid, remEuclidRaw, f64Eps]
  have erz5 : remEuclid 0 (1 / 5) = 0 := by
    norm_num [remEuclid, remEuclidRaw, f64Eps]
  have erz10 : remEuclid 0 (1 / 10) = 0 := by
    norm_num [remEuclid, remEuclidRaw, f64Eps]
  have er2 : remEuclid 1 (1 / 2) = 0 := by
    norm_num [remEuclid, remEuclidRaw, f64Eps]
  have er5 : remEuclid 1 (1 / 5) = 0 := by
    norm_num [remEuclid, remEuclidRaw, f64Eps]
  have er10 : remEuclid 1 (1 / 10) = 0 := by
    norm_num [remEuclid, remEuclidRaw, f64Eps]
  have ec2 : (f64round (candCount 0 1 1 2)).toNat = 3 := by
    norm_num [candCount, alignLeft, alignRight, er2, erz2, f64round]
    decide
  have ec5 : (f64round (candCount 0 1 1 5)).toNat = 6 := by
    norm_num [candCount, alignLeft, alignRight, er5, erz5, f64round]
    decide
  have ec10 : (f64round (candCount 0 1 1 10)).toNat = 11 := by
    norm_num [candCount, alignLeft, alignRight, er10, erz10, f64round]
    decide
  have epass : tickPass 0 1 10 1 (1 / 10) = .inl (1 / 5, 1 / 10) := by
    rw [tickPass, if_neg (by rw [ec2]; norm_num), if_neg (by rw [ec5]; norm_num),
      if_pos (by rw [ec10]; norm_num)]
  have eloop : tickLoop 0 1 10 40 1 (1 / 10) = (1 / 5, 1 / 10) := by
    rw [show (40 : Nat) = 39 + 1 from rfl]
    exact tickLoop_break 0 1 10 39 1 (1 / 10) (1 / 5, 1 / 10) epass
  have eal : alignLeft 0 (1 / 5) = 0 := by
    norm_num [alignLeft, erz5]
  have ear : alignRight 1 (1 / 5) = 1 := by
    norm_num [alignRight, er5]
  have ee : tickEmit 1 0 (1 / 10) (1 / 5) 64 0 =
      [0, 1 / 5, 2 / 5, 3 / 5, 4 / 5, 1] := by
    rw [show (64 : Nat) = 63 + 1 from rfl]
    rw [tickEmit_step _ _ _ _ _ _ (by norm_num [f64Eps]) (by norm_num [f64round])]
    norm_num
    rw [show (63 : Nat) = 62 + 1 from rfl]
    rw [tickEmit_step _ _ _ _ _ _ (by norm_num [f64Eps]) (by norm_num [f64round])]
    norm_num
    rw [show (62 : Nat) = 61 + 1 from rfl]
    rw [tickEmit_step _ _ _ _ _ _ (by norm_num [f64Eps]) (by norm_num [f64round])]
    norm_num
    rw [show (61 : Nat) = 60 + 1 from rfl]
    rw [tickEmit_step _ _ _ _ _ _ (by norm_num [f64Eps]) (by norm_num [f64round])]
    norm_num
    rw [show (60 : Nat) = 59 + 1 from rfl]
    rw [tickEmit_step _ _ _ _ _ _ (by norm_num [f64Eps]) (by norm_num [f64round])]
    norm_num
    rw [show (59 : Nat) = 58 + 1 from rfl]
    rw [tickEmit_step _ _ _ _ _ _ (by norm_num [f64Eps]) (by norm_num [f64round])]
    norm_num
    rw [show (58 : Nat) = 57 + 1 from rfl]
    rw [tickEmit_stop _ _ _ _ _ _ (by norm_num [f64Eps])]
  norm_num [RangedDataPoint.keyPoints, et0, et1, f64Eps, elog, eloop, eal, ear, ee,
    DataPoint.fromF64]

end Rasorite
